import Mathlib

/-!
Verification of the todo application's ordering, grouping, recurrence and
persistence-diff logic, as a shallow embedding of the TypeScript source
(`src/app/App.tsx`, `src/app/types.ts`, `src/app/supabaseTodos.ts`,
`src/app/components/TodoList.tsx`) into Lean.

Conventions of the embedding:
* JavaScript numbers holding order values are modelled as `Int` (the code
  produces `-1` via `findIndex` fallbacks and only ever adds small integers).
* `string | null | undefined` fields are modelled as `Option String`.
* JavaScript's stable `Array.prototype.sort` with a consistent comparator is
  modelled by a stable insertion sort (`stableSortBy`): any stable sort with
  the same comparator yields the same list.
* Dates flowing through `new Date(...)` / `setDate` / `toISOString` are
  modelled as proleptic-Gregorian day arithmetic in a single fixed (UTC)
  timezone, the intended semantics of the calendar math in the source.
* Persistence is assumed in sync with the in-memory list at the start of a
  handler, so the refetch performed after spawning a recurring child returns
  the optimistically updated rows (ordered by `order`, as `fetchTodos` does).
-/

/-- Item category, `"today" | "backlog"` in the source. -/
inductive Category where
  | today
  | backlog
deriving DecidableEq, Repr

/-- Priority enum `"" | "!" | "!!" | "!!!"`. `p0` is the empty string. -/
inductive Priority where
  | p0
  | p1
  | p2
  | p3
deriving DecidableEq, Repr

/-- `PRIORITY_VALUES` from `types.ts`: numeric priority, higher = more urgent. -/
def priorityValue : Priority → Int
  | .p0 => 0
  | .p1 => 1
  | .p2 => 2
  | .p3 => 3

/-- The `Todo` record from `types.ts`. -/
structure Todo where
  id : String
  summary : String
  description : String
  completed : Bool
  category : Category
  dueDate : String
  starred : Bool
  repeatDays : Nat
  group : String
  priority : Priority
  order : Int
  completedAt : Option String := none
  deletedAt : Option String := none
  recurringParentId : Option String := none
deriving DecidableEq, Repr

/-- The reserved display name for the empty stored group (`types.ts`). -/
def UNGROUPED : String := "Ungrouped"

/-- `displayGroup` from `types.ts`: `group || UNGROUPED`. -/
def displayGroup (group : String) : String :=
  if group = "" then UNGROUPED else group

/-- `storedGroup` from `types.ts`. -/
def storedGroup (displayName : String) : String :=
  if displayName = UNGROUPED then "" else displayName

/-- Stable insertion step: place `x` before the first element `y` with
`lt x y`; elements comparing equal keep their existing relative position. -/
def insertBy (lt : α → α → Bool) (x : α) : List α → List α
  | [] => [x]
  | y :: ys => if lt x y then x :: y :: ys else y :: insertBy lt x ys

/-- Stable sort, modelling JavaScript's stable `Array.prototype.sort` for a
consistent comparator `cmp`, with `lt a b` meaning `cmp(a, b) < 0`. -/
def stableSortBy (lt : α → α → Bool) (l : List α) : List α :=
  l.foldl (fun acc x => insertBy lt x acc) []

/-- `.sort((a, b) => a.order - b.order)` on a todo list. -/
def sortByOrder (l : List Todo) : List Todo :=
  stableSortBy (fun a b => a.order < b.order) l

/-- JavaScript `Array.prototype.findIndex`: the index, or `-1` if absent. -/
def findIndexI (p : α → Bool) (l : List α) : Int :=
  match l.findIdx? p with
  | some i => (i : Int)
  | none => -1

/-- JavaScript `splice(n, 0, x)`: insert `x` at index `n`. -/
def insertAt (n : Nat) (x : α) (l : List α) : List α :=
  l.take n ++ x :: l.drop n

/-- `Math.max(...l.map(t => t.order))` guarded by a length check: the source's
`siblings.length > 0 ? Math.max(...) : -1` idiom. -/
def maxOrderOf (l : List Todo) : Int :=
  match l.map (·.order) with
  | [] => -1
  | x :: xs => xs.foldl max x

/-- `handleMove` from `App.tsx` (both branches: same-group reorder and
cross-group move), as a pure function on the in-memory todo list. -/
def handleMove (todos : List Todo) (dragId hoverId dragGroup hoverGroup : String) :
    List Todo :=
  match todos.find? (fun t => t.id == dragId), todos.find? (fun t => t.id == hoverId) with
  | some dragTodo, some hoverTodo =>
    if dragGroup = hoverGroup ∧ dragTodo.category = hoverTodo.category then
      -- Reorder within the same group
      let groupTodos := sortByOrder (todos.filter (fun t =>
        decide (t.category = dragTodo.category ∧ displayGroup t.group = dragGroup)))
      match groupTodos.findIdx? (fun t => t.id == dragId),
            groupTodos.findIdx? (fun t => t.id == hoverId) with
      | some dragIdx, some hoverIdx =>
        match groupTodos[dragIdx]? with
        | some removed =>
          let reordered := insertAt hoverIdx removed (groupTodos.eraseIdx dragIdx)
          todos.map (fun todo =>
            match reordered.findIdx? (fun t => t.id == todo.id) with
            | some newIdx => { todo with order := (newIdx : Int) }
            | none => todo)
        | none => todos
      | _, _ => todos
    else
      -- Move to a different group
      let targetTodos := sortByOrder (todos.filter (fun t =>
        decide (t.category = hoverTodo.category ∧ displayGroup t.group = hoverGroup)))
      let hoverIdx : Int := findIndexI (fun t => t.id == hoverId) targetTodos
      let updated := todos.map (fun todo =>
        if todo.id = dragId then
          { todo with
            group := storedGroup hoverGroup
            category := hoverTodo.category
            order := hoverIdx }
        else if displayGroup todo.group = hoverGroup ∧
                todo.category = hoverTodo.category ∧
                todo.order ≥ hoverIdx ∧ todo.id ≠ hoverId then
          { todo with order := todo.order + 1 }
        else todo)
      let sourceTodos := sortByOrder (updated.filter (fun t =>
        decide (t.category = dragTodo.category ∧ displayGroup t.group = dragGroup ∧
          t.id ≠ dragId)))
      updated.map (fun todo =>
        match sourceTodos.findIdx? (fun t => t.id == todo.id) with
        | some sourceIdx =>
          if displayGroup todo.group = dragGroup ∧ todo.category = dragTodo.category then
            { todo with order := (sourceIdx : Int) }
          else todo
        | none => todo)
  | _, _ => todos

/-- The JavaScript `Map` built in `batchUpdateOrder`: id-keyed lookup,
last entry wins. -/
def mapGet (l : List Todo) (i : String) : Option Todo :=
  l.foldl (fun acc t => if t.id = i then some t else acc) none

/-- The records `batchUpdateOrder` (supabaseTodos.ts) selects for persistence:
those whose `order` or `group` changed relative to the snapshot.  Each selected
record is sent as `updateTodo(t.id, { order: t.order, group: t.group })`. -/
def batchMutations (original updated : List Todo) : List Todo :=
  updated.filter (fun t =>
    match mapGet original t.id with
    | some prev => decide (¬ (prev.order = t.order ∧ prev.group = t.group))
    | none => false)

/-- Live (`deletedAt == null`) members of the `(category, display group)`
bucket. -/
def bucketOrders (todos : List Todo) (c : Category) (g : String) : List Int :=
  (todos.filter (fun t =>
    decide (t.deletedAt = none ∧ t.category = c ∧ displayGroup t.group = g))).map (·.order)

/-- A list of orders is dense: sorted ascending it is exactly `0..n-1`. -/
def denseList (l : List Int) : Bool :=
  stableSortBy (fun a b : Int => a < b) l == (List.range l.length).map (fun i => (i : Int))

/-- Every `(category, display group)` bucket of live items has dense orders. -/
def isDense (todos : List Todo) : Bool :=
  todos.all (fun t =>
    if t.deletedAt = none then
      denseList (bucketOrders todos t.category (displayGroup t.group))
    else true)

/-! ### Calendar-day arithmetic

`new Date(todayStr)` / `setDate(getDate() + n)` / `toISOString().split("T")[0]`
add `n` calendar days in the proleptic Gregorian calendar.  We use the
standard civil-calendar day-number conversion. -/

/-- Day number of a civil date (days since 1970-01-01). -/
def daysFromCivil (date : Nat × Nat × Nat) : Int :=
  let y : Int := date.1
  let m : Int := date.2.1
  let d : Int := date.2.2
  let y := if m ≤ 2 then y - 1 else y
  let era := (if 0 ≤ y then y else y - 399) / 400
  let yoe := y - era * 400
  let doy := (153 * (if 2 < m then m - 3 else m + 9) + 2) / 5 + d - 1
  let doe := yoe * 365 + yoe / 4 - yoe / 100 + doy
  era * 146097 + doe - 719468

/-- Civil date of a day number (inverse of `daysFromCivil`). -/
def civilFromDays (z : Int) : Nat × Nat × Nat :=
  let z := z + 719468
  let era := (if 0 ≤ z then z else z - 146096) / 146097
  let doe := z - era * 146097
  let yoe := (doe - doe / 1460 + doe / 36524 - doe / 146096) / 365
  let y := yoe + era * 400
  let doy := doe - (365 * yoe + yoe / 4 - yoe / 100)
  let mp := (5 * doy + 2) / 153
  let d := doy - (153 * mp + 2) / 5 + 1
  let m := if mp < 10 then mp + 3 else mp - 9
  let y := if m ≤ 2 then y + 1 else y
  (y.toNat, m.toNat, d.toNat)

/-- `nextDue.setDate(nextDue.getDate() + n)`: add `n` calendar days. -/
def addDays (date : Nat × Nat × Nat) (n : Nat) : Nat × Nat × Nat :=
  civilFromDays (daysFromCivil date + n)

/-- Zero-pad a month or day number to two digits. -/
def pad2 (n : Nat) : String :=
  if n < 10 then "0" ++ toString n else toString n

/-- Render a civil date as the `YYYY-MM-DD` string `toISOString` yields. -/
def formatDate (date : Nat × Nat × Nat) : String :=
  toString date.1 ++ "-" ++ pad2 date.2.1 ++ "-" ++ pad2 date.2.2

/-! ### The remaining `App.tsx` handlers -/

/-- `handleToggle` from `App.tsx`.  `today` is the current civil date
(the source's `todayStr`), `now` the current timestamp string used for
soft-deletion, `freshId` the id the repository assigns to a spawned child,
and `updateFails` selects the `catch` path of the initial `updateTodo`
(which reverts `completed`/`completedAt` and, having thrown before the
recurrence logic ran, performs nothing else). -/
def handleToggle (todos : List Todo) (id : String) (today : Nat × Nat × Nat)
    (now freshId : String) (updateFails : Bool) : List Todo :=
  match todos.find? (fun t => t.id == id) with
  | none => todos
  | some todo =>
    let todayStr := formatDate today
    let isCompletingNow := ! todo.completed
    -- Optimistic UI update
    let optimistic := todos.map (fun t =>
      if t.id = id then
        { t with
          completed := isCompletingNow
          completedAt := if isCompletingNow then some todayStr else none }
      else t)
    if updateFails then
      -- Revert on failure
      optimistic.map (fun t =>
        if t.id = id then
          { t with completed := todo.completed, completedAt := todo.completedAt }
        else t)
    else if 0 < todo.repeatDays then
      if isCompletingNow then
        let nextDue := addDays today todo.repeatDays
        let siblings := todos.filter (fun t =>
          decide (t.category = todo.category ∧ t.group = todo.group ∧ t.deletedAt = none))
        let maxOrder := maxOrderOf siblings
        let child : Todo :=
          { id := freshId
            summary := todo.summary
            description := todo.description
            completed := false
            category := todo.category
            dueDate := formatDate nextDue
            starred := false
            repeatDays := todo.repeatDays
            group := todo.group
            priority := todo.priority
            order := maxOrder + 1
            completedAt := none
            deletedAt := none
            recurringParentId := some todo.id }
        -- Refetch: the repository returns the settled rows ordered by `order`
        sortByOrder (optimistic ++ [child])
      else
        -- Uncompleting: remove the child occurrence that was created
        match todos.find? (fun t =>
            t.recurringParentId == some todo.id && t.deletedAt == none) with
        | some child =>
          optimistic.map (fun t =>
            if t.id = child.id then { t with deletedAt := some now } else t)
        | none => optimistic
    else optimistic

/-- `handleDelete` from `App.tsx`: optimistic soft-delete; on persistence
failure the item's `deletedAt` is reset to `null`. -/
def handleDelete (todos : List Todo) (id : String) (now : String)
    (deleteFails : Bool) : List Todo :=
  let optimistic := todos.map (fun t =>
    if t.id = id then { t with deletedAt := some now } else t)
  if deleteFails then
    optimistic.map (fun t =>
      if t.id = id then { t with deletedAt := none } else t)
  else optimistic

/-- A `Partial<Todo>`: each present field overrides the target's value. -/
structure TodoPatch where
  summary : Option String := none
  description : Option String := none
  completed : Option Bool := none
  category : Option Category := none
  dueDate : Option String := none
  starred : Option Bool := none
  repeatDays : Option Nat := none
  group : Option String := none
  priority : Option Priority := none
  order : Option Int := none
  completedAt : Option (Option String) := none
  recurringParentId : Option (Option String) := none
deriving DecidableEq, Repr

/-- Object spread `{ ...t, ...updates }`. -/
def applyPatch (t : Todo) (p : TodoPatch) : Todo :=
  { t with
    summary := p.summary.getD t.summary
    description := p.description.getD t.description
    completed := p.completed.getD t.completed
    category := p.category.getD t.category
    dueDate := p.dueDate.getD t.dueDate
    starred := p.starred.getD t.starred
    repeatDays := p.repeatDays.getD t.repeatDays
    group := p.group.getD t.group
    priority := p.priority.getD t.priority
    order := p.order.getD t.order
    completedAt := p.completedAt.getD t.completedAt
    recurringParentId := p.recurringParentId.getD t.recurringParentId }

/-- `handleUpdate` from `App.tsx`.  Its `catch` block only logs the error:
the optimistically updated state is kept whether or not `updateTodo`
fails, so the result does not depend on `updateFails`. -/
def handleUpdate (todos : List Todo) (id : String) (p : TodoPatch)
    (updateFails : Bool) : List Todo :=
  let _ := updateFails
  todos.map (fun t => if t.id = id then applyPatch t p else t)

/-- `handleMoveGroup` from `App.tsx`, acting on the group-order list.  On
persistence failure the original list is restored wholesale. -/
def handleMoveGroup (groupOrder : List String) (dragGroup hoverGroup : String)
    (insertAfter : Bool) (saveFails : Bool) : List String :=
  if dragGroup = hoverGroup then groupOrder
  else
    let next := if groupOrder.contains dragGroup then groupOrder
                else groupOrder ++ [dragGroup]
    let next := if next.contains hoverGroup then next else next ++ [hoverGroup]
    let dragIdx := (next.findIdx? (· == dragGroup)).getD 0
    let hoverIdx := (next.findIdx? (· == hoverGroup)).getD 0
    let insertIdx := if insertAfter then hoverIdx + 1 else hoverIdx
    let adjusted := if dragIdx < hoverIdx then insertIdx - 1 else insertIdx
    let result := insertAt adjusted dragGroup (next.eraseIdx dragIdx)
    if saveFails then groupOrder else result

/-- `handleRenameGroup` from `App.tsx`: rewrites matching items' stored group
and the order list; on failure both revert to their snapshots. -/
def handleRenameGroup (todos : List Todo) (groupOrder : List String)
    (oldName newName : String) (saveFails : Bool) : List Todo × List String :=
  if oldName = newName ∨ newName.trim = "" then (todos, groupOrder)
  else
    let newStored := storedGroup newName
    let updatedTodos := todos.map (fun t =>
      if displayGroup t.group = oldName then { t with group := newStored } else t)
    let updatedOrder := groupOrder.map (fun g => if g = oldName then newName else g)
    if saveFails then (todos, groupOrder) else (updatedTodos, updatedOrder)

/-- `handleAdd` from `App.tsx` composed with a successful `addTodo`: the
repository echoes the created record (fresh id, `deleted_at: null`) and it is
appended to the list. -/
def handleAdd (todos : List Todo) (text : String) (category : Category)
    (newId : String) : List Todo :=
  let ungrouped := todos.filter (fun t =>
    decide (t.category = category ∧ t.group = ""))
  let maxOrder := maxOrderOf ungrouped
  todos ++ [{ id := newId
              summary := text
              description := ""
              completed := false
              category := category
              dueDate := ""
              starred := false
              repeatDays := 0
              group := ""
              priority := .p0
              order := maxOrder + 1
              completedAt := none
              deletedAt := none
              recurringParentId := none }]

/-! ### View projection (`TodoList.tsx`) -/

/-- `groupRank` from `TodoList.tsx`: `none` models the `Infinity` returned
when the order list is empty or the group is absent. -/
def groupRank (group : String) (order : List String) : Option Nat :=
  if order.isEmpty then none
  else
    match order.findIdx? (· == group) with
    | some idx => some idx
    | none => none

/-- `byPriorityGroupOrder` from `TodoList.tsx`, composed with the sort's
treatment of its return value (ES `SortCompare` maps a `NaN` comparator
result to `+0`).  When both ranks are `Infinity` the subtraction yields
`NaN`, the early `gDiff !== 0` test fires, and the pair is treated as
equal: the `order` tie-break is never reached in that case. -/
def byPriorityGroupOrder (order : List String) (a b : Todo) : Ordering :=
  let pDiff := priorityValue b.priority - priorityValue a.priority
  if pDiff ≠ 0 then (if pDiff < 0 then .lt else .gt)
  else
    match groupRank (displayGroup a.group) order,
          groupRank (displayGroup b.group) order with
    | some ra, some rb =>
      if ra < rb then .lt
      else if rb < ra then .gt
      else
        if a.order < b.order then .lt
        else if b.order < a.order then .gt
        else .eq
    | some _, none => .lt
    | none, some _ => .gt
    | none, none => .eq

/-- The `nextUp` comparator: starred first, then `byPriorityGroupOrder`. -/
def nextUpCmp (order : List String) (a b : Todo) : Ordering :=
  if a.starred ≠ b.starred then (if b.starred then .gt else .lt)
  else byPriorityGroupOrder order a b

/-- The Today view's `nextUp` bucket from `TodoList.tsx`: incomplete, no due
date, live; sorted starred-first then by the primary comparator; first 3. -/
def nextUp (todos : List Todo) (groupOrder : List String) : List Todo :=
  (stableSortBy (fun a b => nextUpCmp groupOrder a b == Ordering.lt)
    (todos.filter (fun t =>
      decide (t.completed = false ∧ t.dueDate = "" ∧ t.deletedAt = none)))).take 3

example : displayGroup "" = "Ungrouped" := by decide
example : maxOrderOf [] = -1 := by decide
example : addDays (2026, 2, 7) 7 = (2026, 2, 14) := by decide
example : addDays (2026, 12, 28) 7 = (2027, 1, 4) := by decide
example : formatDate (2026, 2, 14) = "2026-02-14" := by decide

/-! ### General lemmas about the embedding's list machinery -/

theorem insertBy_perm (lt : α → α → Bool) (x : α) (l : List α) :
    (insertBy lt x l).Perm (x :: l) := by
  induction l with
  | nil => exact List.Perm.refl _
  | cons y ys ih =>
    unfold insertBy
    split
    · exact List.Perm.refl _
    · exact (List.Perm.cons y ih).trans (List.Perm.swap x y ys)

theorem foldl_insertBy_perm (lt : α → α → Bool) (l acc : List α) :
    (l.foldl (fun acc x => insertBy lt x acc) acc).Perm (l ++ acc) := by
  induction l generalizing acc with
  | nil => exact List.Perm.refl _
  | cons x xs ih =>
    have h1 : (xs.foldl (fun acc x => insertBy lt x acc) (insertBy lt x acc)).Perm
        (xs ++ insertBy lt x acc) := ih _
    have h2 : (xs ++ insertBy lt x acc).Perm (xs ++ x :: acc) :=
      List.Perm.append_left xs (insertBy_perm lt x acc)
    have h3 : (xs ++ x :: acc).Perm (x :: (xs ++ acc)) := List.perm_middle
    exact (h1.trans h2).trans h3

theorem stableSortBy_perm (lt : α → α → Bool) (l : List α) :
    (stableSortBy lt l).Perm l := by
  have h := foldl_insertBy_perm lt l []
  simpa [stableSortBy] using h

theorem sortByOrder_perm (l : List Todo) : (sortByOrder l).Perm l :=
  stableSortBy_perm _ l

/-- `find?` by id commutes with a map that preserves ids. -/
theorem find?_map_of_id_pres {f : Todo → Todo} (hf : ∀ t, (f t).id = t.id)
    (l : List Todo) (x : String) :
    (l.map f).find? (fun t => t.id == x) = (l.find? (fun t => t.id == x)).map f := by
  rw [List.find?_map]
  have : ((fun t : Todo => t.id == x) ∘ f) = (fun t : Todo => t.id == x) := by
    funext t
    simp [Function.comp, hf]
  rw [this]

/-- In a list with no duplicate ids, `find?` by a member's id returns that
member. -/
theorem find?_eq_self_of_nodup {l : List Todo} (h : (l.map (·.id)).Nodup)
    {t : Todo} (ht : t ∈ l) : l.find? (fun u => u.id == t.id) = some t := by
  cases hfind : l.find? (fun u => u.id == t.id) with
  | none =>
    rw [List.find?_eq_none] at hfind
    exact absurd (by simp) (hfind t ht)
  | some u =>
    have hu := List.find?_some hfind
    have humem := List.mem_of_find?_eq_some hfind
    have : u = t := List.inj_on_of_nodup_map h humem ht (by simpa using hu)
    rw [this]

/-- Members with equal ids coincide when ids are duplicate-free. -/
theorem eq_of_id_eq_of_nodup {l : List Todo} (h : (l.map (·.id)).Nodup)
    {a b : Todo} (ha : a ∈ l) (hb : b ∈ l) (hid : a.id = b.id) : a = b :=
  List.inj_on_of_nodup_map h ha hb hid

theorem findIdx?_eq_none_of_all {p : α → Bool} {l : List α}
    (h : ∀ a ∈ l, p a = false) : ∀ s, l.findIdx? p s = none := by
  induction l with
  | nil => intro s; simp
  | cons a tl ih =>
    intro s
    rw [List.findIdx?_cons]
    rw [h a (by simp)]
    simpa using ih (fun b hb => h b (by simp [hb])) (s + 1)

/-- In a list with no duplicate ids, searching for the id of the element at
position `j` finds exactly position `j` (shifted by the start index). -/
theorem findIdx?_id_getElem_of_nodup {l : List Todo} (h : (l.map (·.id)).Nodup) :
    ∀ (s j : Nat) (hj : j < l.length),
      l.findIdx? (fun u => u.id == l[j].id) s = some (s + j) := by
  induction l with
  | nil => intro s j hj; simp at hj
  | cons a tl ih =>
    intro s j hj
    match j with
    | 0 =>
      rw [List.findIdx?_cons]
      simp
    | j + 1 =>
      have hj' : j < tl.length := by simpa using hj
      have h' : a.id ∉ tl.map (·.id) ∧ (tl.map (·.id)).Nodup := by
        rw [List.map_cons, List.nodup_cons] at h
        exact h
      have hidne : a.id ≠ tl[j].id := by
        intro he
        exact h'.1 (he ▸ List.mem_map.mpr ⟨tl[j], List.getElem_mem hj', rfl⟩)
      have hget : (a :: tl)[j + 1] = tl[j] := by simp
      rw [List.findIdx?_cons, hget]
      have hcond : (a.id == tl[j].id) = false := by
        simpa using hidne
      rw [hcond]
      simp only [if_neg Bool.false_ne_true]
      rw [ih h'.2 (s + 1) j hj']
      congr 1
      omega

theorem findIdx?_lt_length {p : α → Bool} {l : List α} :
    ∀ {s j : Nat}, l.findIdx? p s = some j → s ≤ j ∧ j < s + l.length := by
  induction l with
  | nil => intro s j h; simp at h
  | cons a tl ih =>
    intro s j h
    rw [List.findIdx?_cons] at h
    split at h
    · cases h
      simp
    · obtain ⟨h1, h2⟩ := ih h
      constructor
      · omega
      · simp only [List.length_cons]
        omega

theorem map_eq_self_of_eq {l : List α} {f : α → α} (h : ∀ a ∈ l, f a = a) :
    l.map f = l := by
  rw [List.map_congr_left h]
  simp

/-- A member of a list of length at most one is its only element. -/
theorem eq_singleton_of_length_le_one {l : List α} (h : l.length ≤ 1)
    {a : α} (ha : a ∈ l) : l = [a] := by
  match l with
  | [] => simp at ha
  | [b] => simp at ha; rw [ha]
  | b :: c :: tl => simp at h

/-- `find?` returns the unique satisfier. -/
theorem find?_eq_some_of_unique {p : α → Bool} {l : List α} {c : α}
    (huniq : ∀ b ∈ l, p b = true → b = c) (hc : c ∈ l) (hpc : p c = true) :
    l.find? p = some c := by
  induction l with
  | nil => simp at hc
  | cons a tl ih =>
    rw [List.find?_cons]
    cases hpa : p a with
    | true =>
      simp only
      rw [huniq a (by simp) hpa]
    | false =>
      simp only
      have hc' : c ∈ tl := by
        cases List.mem_cons.mp hc with
        | inl h => subst h; simp [hpa] at hpc
        | inr h => exact h
      exact ih (fun b hb hpb => huniq b (by simp [hb]) hpb) hc'

/-! ### Claim C9: round-trip group naming -/

/-- **C9** (confirmed). For every display name `d` (display names are the
non-empty strings produced by `displayGroup`), `displayGroup (storedGroup d) = d`;
and the empty stored value displays as the sentinel `"Ungrouped"`. -/
theorem c9_group_name_round_trip :
    (∀ d : String, d ≠ "" → displayGroup (storedGroup d) = d) ∧
    displayGroup "" = UNGROUPED := by
  refine ⟨fun d hd => ?_, by decide⟩
  unfold storedGroup displayGroup UNGROUPED
  by_cases h : d = "Ungrouped"
  · simp [h]
  · simp [h, hd]

/-- Witness: the round trip evaluated at the sentinel display name itself. -/
theorem c9_group_name_round_trip_witness :
    ("Ungrouped" ≠ "" ∧ displayGroup (storedGroup "Ungrouped") = "Ungrouped") ∧
    ("Work" ≠ "" ∧ displayGroup (storedGroup "Work") = "Work") :=
  ⟨⟨by decide, c9_group_name_round_trip.1 "Ungrouped" (by decide)⟩,
   ⟨by decide, c9_group_name_round_trip.1 "Work" (by decide)⟩⟩

/-! ### Claim C10: shape of a newly added todo -/

/-- The record claim C10 describes for an add: ungrouped in the requested
category, all flags cleared, and `order` one plus the maximum order among all
existing todos of that category with empty group (live and soft-deleted
alike), or `0` when no such todo exists. -/
def addedTodoClaim (todos : List Todo) (text : String) (category : Category)
    (newId : String) : Todo :=
  { id := newId
    summary := text
    description := ""
    completed := false
    category := category
    dueDate := ""
    starred := false
    repeatDays := 0
    group := ""
    priority := .p0
    order :=
      match (todos.filter (fun t =>
        decide (t.category = category ∧ t.group = ""))).map (·.order) with
      | [] => 0
      | x :: xs => 1 + xs.foldr max x
    completedAt := none
    deletedAt := none
    recurringParentId := none }

theorem foldr_max_shift (b : Int) (l : List Int) (a : Int) :
    l.foldr max (max a b) = max b (l.foldr max a) := by
  induction l with
  | nil => exact max_comm a b
  | cons c cs ih =>
    calc (c :: cs).foldr max (max a b) = max c (cs.foldr max (max a b)) := rfl
      _ = max c (max b (cs.foldr max a)) := by rw [ih]
      _ = max b (max c (cs.foldr max a)) := max_left_comm c b _
      _ = max b ((c :: cs).foldr max a) := rfl

theorem foldl_max_eq_foldr_max (l : List Int) (a : Int) :
    l.foldl max a = l.foldr max a := by
  induction l generalizing a with
  | nil => rfl
  | cons b bs ih =>
    calc (b :: bs).foldl max a = bs.foldl max (max a b) := rfl
      _ = bs.foldr max (max a b) := ih _
      _ = max b (bs.foldr max a) := foldr_max_shift b bs a
      _ = (b :: bs).foldr max a := rfl

/-- **C10** (confirmed). `handleAdd` appends exactly the record the claim
describes: ungrouped, cleared flags, and the `1 + max` / `0` order rule over
the category's empty-group todos, deleted ones included. -/
theorem c10_added_todo_shape (todos : List Todo) (text : String)
    (category : Category) (newId : String) :
    handleAdd todos text category newId =
      todos ++ [addedTodoClaim todos text category newId] := by
  simp only [handleAdd, addedTodoClaim, maxOrderOf]
  cases h : (todos.filter (fun t =>
      decide (t.category = category ∧ t.group = ""))).map (·.order) with
  | nil => norm_num
  | cons x xs =>
    have h1 : (match x :: xs with
        | [] => (-1 : Int)
        | y :: ys => ys.foldl max y) = xs.foldl max x := rfl
    have h2 : (match x :: xs with
        | [] => (0 : Int)
        | y :: ys => 1 + ys.foldr max y) = 1 + xs.foldr max x := rfl
    rw [h1, h2, foldl_max_eq_foldr_max, Int.add_comm]

/-! ### Claims C1 and C2: the cross-group move leaves the target item
unshifted, producing a duplicate order -/

/-- Concrete todo constructor for the scenario states. -/
def mkTodo (id grp : String) (ord : Int) (cat : Category) : Todo :=
  { id := id
    summary := id
    description := ""
    completed := false
    category := cat
    dueDate := ""
    starred := false
    repeatDays := 0
    group := grp
    priority := .p0
    order := ord
    completedAt := none
    deletedAt := none
    recurringParentId := none }

/-- Scenario 2 of the spec: X at order 2 in "Work", Home bucket [Y:0, Z:1]. -/
def c1State : List Todo :=
  [mkTodo "X" "Work" 2 .backlog, mkTodo "Y" "Home" 0 .backlog,
   mkTodo "Z" "Home" 1 .backlog]

/-- **C1** (code bug). Dragging X onto Y across groups: the code's shift pass
excludes the target item (`todo.id !== hoverId`), so Y keeps order 0 while X
is also written with order 0 — instead of the claimed X:0, Y:1, Z:2.  Only Z
is shifted to 2, leaving Home with duplicate order 0 and a gap at 1. -/
theorem c1_cross_move_target_not_shifted :
    (handleMove c1State "X" "Y" "Work" "Home").map
        (fun t => (t.id, displayGroup t.group, t.order)) =
      [("X", "Home", 0), ("Y", "Home", 0), ("Z", "Home", 2)] := by
  decide

/-- A dense five-item state: Work = [W1:0, W2:1, X:2], Home = [Y:0, Z:1]. -/
def c2State : List Todo :=
  [mkTodo "W1" "Work" 0 .backlog, mkTodo "W2" "Work" 1 .backlog,
   mkTodo "X" "Work" 2 .backlog, mkTodo "Y" "Home" 0 .backlog,
   mkTodo "Z" "Home" 1 .backlog]

/-- **C2** (code bug). A single cross-group move applied to a state whose
buckets are all dense (orders 0..n-1, everything live) yields a state that is
no longer dense: the dragged item receives the target's order while the
target keeps it. -/
theorem c2_density_not_preserved :
    isDense c2State = true ∧
    isDense (handleMove c2State "X" "Y" "Work" "Home") = false := by
  decide

/-! ### Claim C3: the batch diff ignores `category` -/

/-- State in which a cross-category move within one display group changes
only the dragged item's `category`: D is alone in (today, "G") at order 0,
H alone in (backlog, "G") at order 0. -/
def c3State : List Todo :=
  [mkTodo "D" "G" 0 .today, mkTodo "H" "G" 0 .backlog]

/-- **C3** (code bug). Dragging D onto H moves D to category `backlog` while
its `order` and `group` are unchanged, and `batchUpdateOrder` — which diffs
only `order` and `group` and whose per-item payload never contains
`category` — selects nothing to persist, contradicting the claim that every
record with a changed `category` is sent. -/
theorem c3_category_change_not_sent :
    batchMutations c3State (handleMove c3State "D" "H" "G" "G") = [] ∧
    ((handleMove c3State "D" "H" "G" "G").find? (fun t => t.id == "D")).map
        (·.category) = some Category.backlog ∧
    (c3State.find? (fun t => t.id == "D")).map (·.category) =
      some Category.today := by
  decide

/-! ### Claim C4: rollback on persistence failure -/

/-- A concrete todo for the failed-update counterexample. -/
def c4Todo : Todo := mkTodo "t0" "" 0 .today

/-- A single-field update: change the summary. -/
def c4Patch : TodoPatch := { summary := some "beta" }

/-- **C4 counterexample**. `handleUpdate`'s `catch` only logs: after a failed
single-field update the in-memory state still carries the new value, so it
is not equal to the pre-update state as the claim requires. -/
theorem c4_failed_update_keeps_new_value :
    handleUpdate [c4Todo] "t0" c4Patch true ≠ [c4Todo] ∧
    ((handleUpdate [c4Todo] "t0" c4Patch true).find? (fun t => t.id == "t0")).map
        (·.summary) = some "beta" ∧
    c4Todo.summary = "t0" := by
  decide

/-- **C4** (amended). The rollback guarantee holds for the handlers that
implement it: a failed toggle restores `completed`/`completedAt`, a failed
delete of a live item restores `deletedAt`, and failed move-group /
rename-group calls restore their snapshots wholesale — in each case the
in-memory state equals the pre-mutation state.  (A failed field update and a
failed move batch keep the optimistic state; see the counterexample.) -/
theorem c4_amended_failure_rollback (todos : List Todo) (groupOrder : List String)
    (id dragGroup hoverGroup oldName newName now freshId : String)
    (today : Nat × Nat × Nat) (insertAfter : Bool)
    (hnodup : (todos.map (·.id)).Nodup)
    (hlive : ∀ t ∈ todos, t.id = id → t.deletedAt = none) :
    handleToggle todos id today now freshId true = todos ∧
    handleDelete todos id now true = todos ∧
    handleMoveGroup groupOrder dragGroup hoverGroup insertAfter true = groupOrder ∧
    handleRenameGroup todos groupOrder oldName newName true = (todos, groupOrder) := by
  refine ⟨?_, ?_, ?_, ?_⟩
  · unfold handleToggle
    cases hf : todos.find? (fun t => t.id == id) with
    | none => rfl
    | some todo =>
      have hmem := List.mem_of_find?_eq_some hf
      have hid : todo.id = id := by simpa using List.find?_some hf
      show (todos.map (fun t =>
          if t.id = id then
            { t with
              completed := ! todo.completed
              completedAt := if ! todo.completed then some (formatDate today) else none }
          else t)).map (fun t =>
          if t.id = id then
            { t with completed := todo.completed, completedAt := todo.completedAt }
          else t) = todos
      rw [List.map_map]
      apply map_eq_self_of_eq
      intro t ht
      by_cases h : t.id = id
      · have heq : t = todo := eq_of_id_eq_of_nodup hnodup ht hmem (by rw [h, hid])
        subst heq
        simp [Function.comp, h]
        rw [← h]
      · simp [Function.comp, h]
  · show (todos.map (fun t =>
        if t.id = id then { t with deletedAt := some now } else t)).map (fun t =>
        if t.id = id then { t with deletedAt := none } else t) = todos
    rw [List.map_map]
    apply map_eq_self_of_eq
    intro t ht
    by_cases h : t.id = id
    · have hdel := hlive t ht h
      simp only [Function.comp]
      rw [if_pos h]
      simp only
      rw [if_pos h]
      calc ({ t with deletedAt := none } : Todo)
          = { t with deletedAt := t.deletedAt } := by rw [hdel]
        _ = t := rfl
    · simp [Function.comp, h]
  · by_cases h : dragGroup = hoverGroup <;> simp [handleMoveGroup, h]
  · by_cases h : oldName = newName ∨ newName.trim = "" <;> simp [handleRenameGroup, h]

/-- Witness for the amended C4 at a concrete state. -/
theorem c4_amended_failure_rollback_witness :
    ((([mkTodo "w" "G" 0 .today].map (·.id)).Nodup ∧
      (∀ t ∈ [mkTodo "w" "G" 0 .today], t.id = "w" → t.deletedAt = none)) ∧
     handleToggle [mkTodo "w" "G" 0 .today] "w" (2026, 1, 1) "n" "f" true =
       [mkTodo "w" "G" 0 .today]) ∧
    handleDelete [mkTodo "w" "G" 0 .today] "w" "n" true = [mkTodo "w" "G" 0 .today] ∧
    handleMoveGroup ["A", "B"] "A" "B" false true = ["A", "B"] ∧
    handleRenameGroup [mkTodo "w" "G" 0 .today] ["G"] "G" "H" true =
      ([mkTodo "w" "G" 0 .today], ["G"]) := by
  have h := c4_amended_failure_rollback [mkTodo "w" "G" 0 .today] ["A", "B"]
    "w" "A" "B" "G" "H" "n" "f" (2026, 1, 1) false (by decide) (by decide)
  refine ⟨⟨⟨by decide, by decide⟩, h.1⟩, h.2.1, h.2.2.1, ?_⟩
  have h2 := c4_amended_failure_rollback [mkTodo "w" "G" 0 .today] ["G"]
    "w" "A" "B" "G" "H" "n" "f" (2026, 1, 1) false (by decide) (by decide)
  exact h2.2.2.2

/-! ### Claim C8: the "Next up" bucket -/

/-- The comparator exactly as claim C8 words it: starred first, then numeric
priority descending, then `groupRank` ascending (absent rank = infinity,
sorting last), and always a final `order`-ascending tie-break. -/
def claimNextUpCmp (order : List String) (a b : Todo) : Ordering :=
  if a.starred ≠ b.starred then (if b.starred then .gt else .lt)
  else if priorityValue a.priority ≠ priorityValue b.priority then
    (if priorityValue b.priority < priorityValue a.priority then .lt else .gt)
  else
    match groupRank (displayGroup a.group) order,
          groupRank (displayGroup b.group) order with
    | some ra, some rb =>
      if ra < rb then .lt
      else if rb < ra then .gt
      else
        if a.order < b.order then .lt
        else if b.order < a.order then .gt
        else .eq
    | some _, none => .lt
    | none, some _ => .gt
    | none, none =>
      if a.order < b.order then .lt
      else if b.order < a.order then .gt
      else .eq

/-- The "Next up" bucket as claim C8 describes it. -/
def nextUpClaim (todos : List Todo) (groupOrder : List String) : List Todo :=
  (stableSortBy (fun a b => claimNextUpCmp groupOrder a b == Ordering.lt)
    (todos.filter (fun t =>
      decide (t.completed = false ∧ t.dueDate = "" ∧ t.deletedAt = none)))).take 3

/-- Two live, incomplete, due-date-free items in a group absent from the
(empty) group order, listed in descending `order`. -/
def c8State : List Todo := [mkTodo "a" "X" 5 .backlog, mkTodo "b" "X" 0 .backlog]

/-- **C8 counterexample**.  With both groups unranked, `groupRank` yields
`Infinity` for both sides, `Infinity - Infinity` is `NaN`, the comparator's
early `gDiff !== 0` test returns that `NaN`, and the sort treats it as
"equal" — so the `order` tie-break never runs and the input order survives,
while the claim's comparator would sort b (order 0) before a (order 5). -/
theorem c8_unranked_groups_skip_order_tiebreak :
    nextUp c8State [] ≠ nextUpClaim c8State [] ∧
    (nextUp c8State []).map (·.id) = ["a", "b"] ∧
    (nextUpClaim c8State []).map (·.id) = ["b", "a"] := by
  decide

/-- The amended comparator, as a strict-before test: starred first; priority
descending; group rank ascending with unranked groups last; the `order`
tie-break applies only when both ranks are finite — two items whose groups
are both unranked compare equal, and the stable sort keeps their relative
input order. -/
def amendedNextUpLt (order : List String) (a b : Todo) : Bool :=
  if a.starred ≠ b.starred then a.starred
  else if priorityValue a.priority ≠ priorityValue b.priority then
    decide (priorityValue b.priority < priorityValue a.priority)
  else
    match groupRank (displayGroup a.group) order,
          groupRank (displayGroup b.group) order with
    | some ra, some rb =>
      if ra = rb then decide (a.order < b.order) else decide (ra < rb)
    | some _, none => true
    | none, some _ => false
    | none, none => false

/-- The "Next up" bucket per the amended claim. -/
def nextUpAmended (todos : List Todo) (groupOrder : List String) : List Todo :=
  (stableSortBy (amendedNextUpLt groupOrder)
    (todos.filter (fun t =>
      decide (t.completed = false ∧ t.dueDate = "" ∧ t.deletedAt = none)))).take 3


theorem nextUpCmp_lt_eq_amended (go : List String) (a b : Todo) :
    (nextUpCmp go a b == Ordering.lt) = amendedNextUpLt go a b := by
  unfold nextUpCmp amendedNextUpLt byPriorityGroupOrder
  by_cases hs : a.starred = b.starred
  · rw [if_neg (not_not_intro hs), if_neg (not_not_intro hs)]
    dsimp only
    by_cases hp : priorityValue a.priority = priorityValue b.priority
    · rw [if_neg (not_not_intro
          (show priorityValue b.priority - priorityValue a.priority = 0 by omega)),
        if_neg (not_not_intro hp)]
      cases hra : groupRank (displayGroup a.group) go <;>
        cases hrb : groupRank (displayGroup b.group) go <;> dsimp only
      · rfl
      · rfl
      · rfl
      · rename_i ra rb
        rcases Nat.lt_trichotomy ra rb with h1 | h1 | h1
        · rw [if_pos h1, if_neg (show ¬ ra = rb by omega)]
          simp [h1] <;> rfl
        · subst h1
          rw [if_neg (lt_irrefl ra), if_neg (lt_irrefl ra), if_pos rfl]
          by_cases ho : a.order < b.order
          · simp [ho] <;> rfl
          · rw [if_neg ho]
            by_cases ho2 : b.order < a.order <;> simp [ho, ho2] <;> rfl
        · rw [if_neg (show ¬ ra < rb by omega), if_pos h1,
            if_neg (show ¬ ra = rb by omega)]
          simp [show ¬ ra < rb by omega] <;> rfl
    · rw [if_pos (show priorityValue b.priority - priorityValue a.priority ≠ 0 by omega),
        if_pos hp]
      by_cases hlt : priorityValue b.priority < priorityValue a.priority
      · rw [if_pos (show priorityValue b.priority - priorityValue a.priority < 0 by omega)]
        simp [hlt] <;> rfl
      · rw [if_neg (show ¬ priorityValue b.priority - priorityValue a.priority < 0 by omega)]
        simp [hlt] <;> rfl
  · rw [if_pos hs, if_pos hs]
    cases ha2 : a.starred <;> cases hb2 : b.starred <;> simp_all <;> rfl

/-- **C8** (amended).  The source `nextUp` equals the amended description:
live, incomplete, due-date-free items, stable-sorted starred-first then by
priority descending, group rank ascending, with the `order` tie-break
applying only between two finitely-ranked groups (an unranked pair keeps its
input order), truncated to the first 3. -/
theorem c8_amended_next_up (todos : List Todo) (groupOrder : List String) :
    nextUp todos groupOrder = nextUpAmended todos groupOrder := by
  unfold nextUp nextUpAmended
  have h : (fun a b => nextUpCmp groupOrder a b == Ordering.lt) =
      amendedNextUpLt groupOrder := by
    funext a b
    exact nextUpCmp_lt_eq_amended groupOrder a b
  rw [h]

/-! ### Claim C6: reorder within one bucket -/

theorem insertAt_perm (n : Nat) (x : α) (l : List α) :
    (insertAt n x l).Perm (x :: l) := by
  unfold insertAt
  have h : (l.take n ++ x :: l.drop n).Perm (x :: (l.take n ++ l.drop n)) :=
    List.perm_middle
  rwa [List.take_append_drop] at h

theorem perm_cons_eraseIdx {l : List α} :
    ∀ {i : Nat} {x : α}, l[i]? = some x → l.Perm (x :: l.eraseIdx i) := by
  induction l with
  | nil => intro i x h; simp at h
  | cons a tl ih =>
    intro i x h
    match i with
    | 0 =>
      simp at h
      rw [h]
      exact List.Perm.refl _
    | i + 1 =>
      have h' : tl[i]? = some x := by simpa using h
      have hta := ih h'
      exact (List.Perm.cons a hta).trans (List.Perm.swap x a _)

/-- The order-sorted sequence of the `(category, display group)` bucket, the
object the spec's reorder description manipulates. -/
def bucketSeq (todos : List Todo) (c : Category) (g : String) : List Todo :=
  sortByOrder (todos.filter (fun t =>
    decide (t.category = c ∧ displayGroup t.group = g)))

/-- **C6** (confirmed).  For a same-bucket reorder (both ids in the bucket of
category `dt.category` and display group `g`, passed as both the drag and
hover group), the dragged item is removed from its index `di` in the bucket's
order-sorted sequence and reinserted at the target's index `hi` (splice
semantics, matching Scenario 1), and every item of the resulting sequence is
rewritten with `order = its index`; todos outside the bucket are unchanged. -/
theorem c6_reorder_within_group
    (todos : List Todo) (dragId hoverId g : String) (dt ht rem : Todo) (di hi : Nat)
    (hfd : todos.find? (fun t : Todo => t.id == dragId) = some dt)
    (hfh : todos.find? (fun t : Todo => t.id == hoverId) = some ht)
    (hcat : dt.category = ht.category)
    (hnodup : (todos.map (·.id)).Nodup)
    (hdi : (bucketSeq todos dt.category g).findIdx? (fun t : Todo => t.id == dragId) = some di)
    (hhi : (bucketSeq todos dt.category g).findIdx? (fun t : Todo => t.id == hoverId) = some hi)
    (hrem : (bucketSeq todos dt.category g)[di]? = some rem) :
    (∀ (j : Nat)
      (hj : j < (insertAt hi rem ((bucketSeq todos dt.category g).eraseIdx di)).length),
      (handleMove todos dragId hoverId g g).find?
          (fun u : Todo => u.id ==
            (insertAt hi rem ((bucketSeq todos dt.category g).eraseIdx di))[j].id) =
        some { (insertAt hi rem ((bucketSeq todos dt.category g).eraseIdx di))[j] with
                 order := (j : Int) }) ∧
    (∀ t ∈ todos, ¬ (t.category = dt.category ∧ displayGroup t.group = g) →
      (handleMove todos dragId hoverId g g).find? (fun u : Todo => u.id == t.id) = some t) := by
  have hBperm : (bucketSeq todos dt.category g).Perm
      (todos.filter (fun t =>
        decide (t.category = dt.category ∧ displayGroup t.group = g))) :=
    stableSortBy_perm _ _
  have hBids : ((bucketSeq todos dt.category g).map (·.id)).Nodup := by
    have hsub : (todos.filter (fun t : Todo =>
        decide (t.category = dt.category ∧ displayGroup t.group = g))).Sublist todos :=
      List.filter_sublist todos
    have hfil : ((todos.filter (fun t =>
        decide (t.category = dt.category ∧ displayGroup t.group = g))).map (·.id)).Nodup :=
      (hsub.map (·.id)).nodup hnodup
    exact ((hBperm.map (·.id)).nodup_iff).mpr hfil
  have hNperm : (insertAt hi rem ((bucketSeq todos dt.category g).eraseIdx di)).Perm
      (bucketSeq todos dt.category g) :=
    (insertAt_perm hi rem _).trans (perm_cons_eraseIdx hrem).symm
  have hNids : ((insertAt hi rem ((bucketSeq todos dt.category g).eraseIdx di)).map
      (·.id)).Nodup := ((hNperm.map (·.id)).nodup_iff).mpr hBids
  have hfpres : ∀ t : Todo,
      ((fun todo : Todo =>
        match (insertAt hi rem ((bucketSeq todos dt.category g).eraseIdx di)).findIdx?
            (fun u : Todo => u.id == todo.id) with
        | some newIdx => { todo with order := (newIdx : Int) }
        | none => todo) t).id = t.id := by
    intro t
    cases h : (insertAt hi rem ((bucketSeq todos dt.category g).eraseIdx di)).findIdx?
        (fun u : Todo => u.id == t.id) with
    | some n => simp [h]
    | none => simp [h]
  have hresult : handleMove todos dragId hoverId g g = todos.map (fun todo : Todo =>
      match (insertAt hi rem ((bucketSeq todos dt.category g).eraseIdx di)).findIdx?
          (fun u : Todo => u.id == todo.id) with
      | some newIdx => { todo with order := (newIdx : Int) }
      | none => todo) := by
    unfold handleMove
    rw [hfd, hfh]
    dsimp only
    rw [if_pos ⟨rfl, hcat⟩]
    unfold bucketSeq at hdi hhi hrem
    rw [hdi, hhi]
    dsimp only
    rw [hrem]
    dsimp only
    unfold bucketSeq
    rfl
  constructor
  · intro j hj
    have hxN : (insertAt hi rem ((bucketSeq todos dt.category g).eraseIdx di))[j]
        ∈ insertAt hi rem ((bucketSeq todos dt.category g).eraseIdx di) :=
      List.getElem_mem hj
    have hxB := (hNperm.mem_iff).mp hxN
    have hxfil := (hBperm.mem_iff).mp hxB
    have hxtodos := (List.mem_filter.mp hxfil).1
    rw [hresult, find?_map_of_id_pres hfpres, find?_eq_self_of_nodup hnodup hxtodos,
      Option.map_some']
    have hidx := findIdx?_id_getElem_of_nodup hNids 0 j hj
    rw [Nat.zero_add] at hidx
    simp [hidx]
  · intro t ht hnot
    rw [hresult, find?_map_of_id_pres hfpres, find?_eq_self_of_nodup hnodup ht,
      Option.map_some']
    have hnone : (insertAt hi rem ((bucketSeq todos dt.category g).eraseIdx di)).findIdx?
        (fun u : Todo => u.id == t.id) = none := by
      apply findIdx?_eq_none_of_all
      intro b hb
      have hbB := (hNperm.mem_iff).mp hb
      have hbfil := (hBperm.mem_iff).mp hbB
      have hbtodos := (List.mem_filter.mp hbfil).1
      have hbpred := (List.mem_filter.mp hbfil).2
      have hbne : b.id ≠ t.id := by
        intro he
        have : b = t := eq_of_id_eq_of_nodup hnodup hbtodos ht he
        rw [this] at hbpred
        simp at hbpred
        exact hnot hbpred
      simpa using hbne
    simp [hnone]

/-- Scenario 1 of the spec: bucket [A:0, B:1, C:2] in group "Work". -/
def c6S1 : List Todo :=
  [mkTodo "A" "Work" 0 .backlog, mkTodo "B" "Work" 1 .backlog,
   mkTodo "C" "Work" 2 .backlog]

/-- Witness for C6 at Scenario 1: dragging A onto C yields B:0, C:1, A:2. -/
theorem c6_reorder_within_group_witness :
    (handleMove c6S1 "A" "C" "Work" "Work").find? (fun u : Todo => u.id == "B") =
      some (mkTodo "B" "Work" 0 .backlog) ∧
    (handleMove c6S1 "A" "C" "Work" "Work").find? (fun u : Todo => u.id == "C") =
      some (mkTodo "C" "Work" 1 .backlog) ∧
    (handleMove c6S1 "A" "C" "Work" "Work").find? (fun u : Todo => u.id == "A") =
      some (mkTodo "A" "Work" 2 .backlog) := by
  have h := c6_reorder_within_group c6S1 "A" "C" "Work"
    (mkTodo "A" "Work" 0 .backlog) (mkTodo "C" "Work" 2 .backlog)
    (mkTodo "A" "Work" 0 .backlog) 0 2
    (by decide) (by decide) (by decide) (by decide) (by decide) (by decide) (by decide)
  exact ⟨h.1 0 (by decide), h.1 1 (by decide), h.1 2 (by decide)⟩

/-! ### Claim C7: recurring spawn -/

/-- The per-item update of the optimistic completion toggle (completing). -/
def markCompleted (pid todayStr : String) (t : Todo) : Todo :=
  if t.id = pid then
    { t with completed := true, completedAt := some todayStr }
  else t

/-- The per-item update of the optimistic completion toggle (uncompleting). -/
def markUncompleted (pid : String) (t : Todo) : Todo :=
  if t.id = pid then { t with completed := false, completedAt := none } else t

/-- The per-item update of a soft delete. -/
def markDeleted (cid now : String) (t : Todo) : Todo :=
  if t.id = cid then { t with deletedAt := some now } else t

/-- The child record the spawn branch of `handleToggle` constructs. -/
def spawnChildOf (p : Todo) (today : Nat × Nat × Nat) (freshId : String)
    (maxOrder : Int) : Todo :=
  { id := freshId
    summary := p.summary
    description := p.description
    completed := false
    category := p.category
    dueDate := formatDate (addDays today p.repeatDays)
    starred := false
    repeatDays := p.repeatDays
    group := p.group
    priority := p.priority
    order := maxOrder + 1
    completedAt := none
    deletedAt := none
    recurringParentId := some p.id }

theorem c7_spawn_reduction
    (todos : List Todo) (pid : String) (p : Todo)
    (today : Nat × Nat × Nat) (now freshId : String)
    (hf : todos.find? (fun t : Todo => t.id == pid) = some p)
    (hinc : p.completed = false)
    (hrep : 0 < p.repeatDays) :
    handleToggle todos pid today now freshId false =
      sortByOrder ((todos.map (markCompleted pid (formatDate today))) ++
        [spawnChildOf p today freshId (maxOrderOf (todos.filter (fun t : Todo =>
          decide (t.category = p.category ∧ t.group = p.group ∧
            t.deletedAt = none))))]) := by
  unfold handleToggle
  rw [hf]
  simp only [hinc, Bool.not_false, if_pos hrep, ite_true, if_true]
  rw [if_neg (by simp : ¬ false = true)]
  rfl

theorem c7_unspawn_reduction
    (s : List Todo) (pid : String) (q c : Todo)
    (today : Nat × Nat × Nat) (now freshId : String)
    (hf : s.find? (fun t : Todo => t.id == pid) = some q)
    (hcomp : q.completed = true)
    (hrep : 0 < q.repeatDays)
    (hc : s.find? (fun t : Todo =>
        t.recurringParentId == some q.id && t.deletedAt == none) = some c) :
    handleToggle s pid today now freshId false =
      (s.map (markUncompleted pid)).map (markDeleted c.id now) := by
  unfold handleToggle
  rw [hf]
  simp only [hcomp, Bool.not_true, if_pos hrep]
  rw [if_neg (by simp : ¬ false = true), if_neg (by simp : ¬ false = true), hc]
  dsimp only
  simp only [Bool.false_eq_true, if_false]
  rfl

/-- `find?` by an explicit id equal to a member's id. -/
theorem find?_eq_self_of_nodup_id {l : List Todo} (h : (l.map (·.id)).Nodup)
    {t : Todo} (ht : t ∈ l) {x : String} (hx : t.id = x) :
    l.find? (fun u : Todo => u.id == x) = some t := by
  subst hx
  exact find?_eq_self_of_nodup h ht

theorem maxOrder_add_one_eq (l : List Todo) :
    maxOrderOf l + 1 = (if l.isEmpty then 0 else maxOrderOf l + 1) := by
  cases l with
  | nil => decide
  | cons a as => rfl

theorem markCompleted_id (pid todayStr : String) (t : Todo) :
    (markCompleted pid todayStr t).id = t.id := by
  unfold markCompleted
  by_cases h : t.id = pid <;> simp [h]

theorem markCompleted_parent_fields (pid todayStr : String) (t : Todo) :
    (markCompleted pid todayStr t).recurringParentId = t.recurringParentId ∧
    (markCompleted pid todayStr t).deletedAt = t.deletedAt := by
  unfold markCompleted
  by_cases h : t.id = pid <;> simp [h]

theorem markUncompleted_id (pid : String) (t : Todo) :
    (markUncompleted pid t).id = t.id := by
  unfold markUncompleted
  by_cases h : t.id = pid <;> simp [h]

theorem markUncompleted_del (pid : String) (t : Todo) :
    (markUncompleted pid t).deletedAt = t.deletedAt := by
  unfold markUncompleted
  by_cases h : t.id = pid <;> simp [h]

theorem markDeleted_comp_id (cid now pid : String) (t : Todo) :
    ((markDeleted cid now ∘ markUncompleted pid) t).id = t.id := by
  rw [Function.comp_apply]
  unfold markDeleted
  by_cases h : (markUncompleted pid t).id = cid
  · rw [if_pos h]
    show (markUncompleted pid t).id = t.id
    exact markUncompleted_id pid t
  · rw [if_neg h]
    exact markUncompleted_id pid t

/-- **C7** (confirmed).  Completing a recurring parent spawns exactly the
claimed child: `dueDate = completion date + repeatDays` calendar days,
`summary/description/category/repeatDays/group/priority` cloned,
`completed = false`, `starred = false`, `recurringParentId = parent.id`, and
`order = (max order among live siblings in the parent's bucket) + 1`, or `0`
for an empty bucket; toggling the parent back to incomplete soft-deletes
exactly that child, leaving every other item's `deletedAt` untouched. -/
theorem c7_recurring_spawn
    (todos : List Todo) (pid : String) (p : Todo)
    (today today2 : Nat × Nat × Nat) (now now2 freshId freshId2 : String)
    (hf : todos.find? (fun t : Todo => t.id == pid) = some p)
    (hinc : p.completed = false)
    (hrep : 0 < p.repeatDays)
    (hnodup : (todos.map (·.id)).Nodup)
    (hfresh : freshId ∉ todos.map (·.id))
    (hnochild : ∀ t ∈ todos, t.recurringParentId = some pid → t.deletedAt ≠ none) :
    (handleToggle todos pid today now freshId false).find?
        (fun u : Todo => u.id == freshId) =
      some { id := freshId, summary := p.summary, description := p.description,
             completed := false, category := p.category,
             dueDate := formatDate (addDays today p.repeatDays),
             starred := false, repeatDays := p.repeatDays, group := p.group,
             priority := p.priority,
             order := if (todos.filter (fun t : Todo =>
                 decide (t.category = p.category ∧ t.group = p.group ∧
                   t.deletedAt = none))).isEmpty then 0
               else maxOrderOf (todos.filter (fun t : Todo =>
                 decide (t.category = p.category ∧ t.group = p.group ∧
                   t.deletedAt = none))) + 1,
             completedAt := none, deletedAt := none,
             recurringParentId := some pid } ∧
    ((handleToggle (handleToggle todos pid today now freshId false) pid today2 now2
        freshId2 false).find? (fun u : Todo => u.id == freshId)).map (·.deletedAt) =
      some (some now2) ∧
    (∀ t ∈ handleToggle todos pid today now freshId false, t.id ≠ freshId →
      ((handleToggle (handleToggle todos pid today now freshId false) pid today2 now2
          freshId2 false).find? (fun u : Todo => u.id == t.id)).map (·.deletedAt) =
        some t.deletedAt) := by
  have hpid : p.id = pid := by simpa using List.find?_some hf
  have hpmem : p ∈ todos := List.mem_of_find?_eq_some hf
  have hpidmem : pid ∈ todos.map (·.id) := hpid ▸ List.mem_map.mpr ⟨p, hpmem, rfl⟩
  have hfrne : freshId ≠ pid := fun he => hfresh (he ▸ hpidmem)
  rw [c7_spawn_reduction todos pid p today now freshId hf hinc hrep]
  set S := todos.filter (fun t : Todo =>
    decide (t.category = p.category ∧ t.group = p.group ∧ t.deletedAt = none))
    with hS
  set child : Todo := spawnChildOf p today freshId (maxOrderOf S) with hchild
  set f1 : Todo → Todo := markCompleted pid (formatDate today) with hf1
  have hcid : child.id = freshId := by rw [hchild]; rfl
  have hmapids : ((todos.map f1).map (·.id)) = todos.map (·.id) := by
    rw [List.map_map]
    exact List.map_congr_left (fun t _ => markCompleted_id pid (formatDate today) t)
  have hLids : (((todos.map f1) ++ [child]).map (·.id)).Nodup := by
    rw [List.map_append, hmapids, List.nodup_append]
    refine ⟨hnodup, by simp, ?_⟩
    intro a ha hb
    simp only [List.map_cons, List.map_nil, List.mem_cons, List.not_mem_nil,
      or_false] at hb
    rw [hcid] at hb
    exact hfresh (hb ▸ ha)
  have hs1perm : (sortByOrder ((todos.map f1) ++ [child])).Perm
      ((todos.map f1) ++ [child]) := stableSortBy_perm _ _
  have hs1ids : ((sortByOrder ((todos.map f1) ++ [child])).map (·.id)).Nodup :=
    ((hs1perm.map (·.id)).nodup_iff).mpr hLids
  have hchildmem : child ∈ sortByOrder ((todos.map f1) ++ [child]) :=
    (hs1perm.mem_iff).mpr (List.mem_append.mpr (Or.inr (by simp)))
  have h1 : (sortByOrder ((todos.map f1) ++ [child])).find?
      (fun u : Todo => u.id == freshId) = some child :=
    find?_eq_self_of_nodup_id hs1ids hchildmem hcid
  set q : Todo := markCompleted pid (formatDate today) p with hq
  have hqid : q.id = p.id := by rw [hq]; exact markCompleted_id _ _ _
  have hqcomp : q.completed = true := by
    rw [hq]
    unfold markCompleted
    rw [if_pos hpid]
  have hqrep : 0 < q.repeatDays := by
    rw [hq]
    unfold markCompleted
    rw [if_pos hpid]
    exact hrep
  have hqmem : q ∈ sortByOrder ((todos.map f1) ++ [child]) := by
    refine (hs1perm.mem_iff).mpr (List.mem_append.mpr (Or.inl ?_))
    exact List.mem_map.mpr ⟨p, hpmem, by rw [hq, hf1]⟩
  have hfq : (sortByOrder ((todos.map f1) ++ [child])).find?
      (fun u : Todo => u.id == pid) = some q :=
    find?_eq_self_of_nodup_id hs1ids hqmem (by rw [hqid]; exact hpid)
  have hfindchild : (sortByOrder ((todos.map f1) ++ [child])).find?
      (fun t : Todo => t.recurringParentId == some q.id && t.deletedAt == none) =
      some child := by
    apply find?_eq_some_of_unique
    · intro b hb hpb
      rcases List.mem_append.mp ((hs1perm.mem_iff).mp hb) with hbm | hbm
      · obtain ⟨t, htm, hbt⟩ := List.mem_map.mp hbm
        exfalso
        rw [← hbt] at hpb
        simp only [Bool.and_eq_true, beq_iff_eq] at hpb
        obtain ⟨hrp, hda⟩ := hpb
        rw [hf1, (markCompleted_parent_fields pid (formatDate today) t).1] at hrp
        rw [hf1, (markCompleted_parent_fields pid (formatDate today) t).2] at hda
        rw [hqid, hpid] at hrp
        exact hnochild t htm hrp hda
      · simpa using hbm
    · exact hchildmem
    · rw [hchild, hqid]
      unfold spawnChildOf
      simp
  have hres2 := c7_unspawn_reduction (sortByOrder ((todos.map f1) ++ [child]))
    pid q child today2 now2 freshId2 hfq hqcomp hqrep hfindchild
  rw [hres2]
  refine ⟨?_, ?_, ?_⟩
  · rw [h1]
    congr 1
    rw [hchild]
    unfold spawnChildOf
    conv_lhs => rw [maxOrder_add_one_eq S]
    rw [hpid]
  · rw [List.map_map,
      find?_map_of_id_pres (markDeleted_comp_id child.id now2 pid), h1,
      Option.map_some']
    have hc1 : markUncompleted pid child = child := by
      unfold markUncompleted
      exact if_neg (by rw [hcid]; exact hfrne)
    have hc2 : (markDeleted child.id now2 ∘ markUncompleted pid) child =
        { child with deletedAt := some now2 } := by
      rw [Function.comp_apply, hc1]
      unfold markDeleted
      exact if_pos rfl
    rw [hc2]
    rfl
  · intro t ht htne
    rw [List.map_map,
      find?_map_of_id_pres (markDeleted_comp_id child.id now2 pid),
      find?_eq_self_of_nodup_id hs1ids ht rfl, Option.map_some']
    have hgt : (markDeleted child.id now2 ∘ markUncompleted pid) t =
        markUncompleted pid t := by
      rw [Function.comp_apply]
      unfold markDeleted
      exact if_neg (by rw [markUncompleted_id, hcid]; exact htne)
    show some (((markDeleted child.id now2 ∘ markUncompleted pid) t).deletedAt) =
      some t.deletedAt
    rw [hgt, markUncompleted_del]

/-- A recurring parent: repeat every 7 days, alone in its bucket. -/
def c7P : Todo := { mkTodo "p" "" 0 .today with repeatDays := 7 }

/-- Witness for C7 at Scenario 3: completing on 2026-02-07 spawns a child due
2026-02-14; un-completing then soft-deletes exactly that child. -/
theorem c7_recurring_spawn_witness :
    (handleToggle [c7P] "p" (2026, 2, 7) "n1" "c1" false).find?
        (fun u : Todo => u.id == "c1") =
      some { id := "c1", summary := "p", description := "", completed := false,
             category := .today, dueDate := "2026-02-14", starred := false,
             repeatDays := 7, group := "", priority := .p0, order := 1,
             completedAt := none, deletedAt := none,
             recurringParentId := some "p" } ∧
    ((handleToggle (handleToggle [c7P] "p" (2026, 2, 7) "n1" "c1" false) "p"
        (2026, 2, 8) "n2" "c2" false).find?
          (fun u : Todo => u.id == "c1")).map (·.deletedAt) = some (some "n2") := by
  have h := c7_recurring_spawn [c7P] "p" c7P (2026, 2, 7) (2026, 2, 8)
    "n1" "n2" "c1" "c2" (by decide) (by decide) (by decide) (by decide)
    (by decide) (by decide)
  exact ⟨h.1, h.2.1⟩

/-! ### Claim C5: recurrence uniqueness -/

/-- The per-item update of the optimistic completion toggle, symbolic in the
new completion flag. -/
def markToggled (pid : String) (c : Bool) (todayStr : String) (t : Todo) : Todo :=
  if t.id = pid then
    { t with completed := c, completedAt := if c then some todayStr else none }
  else t

theorem toggle_reduction_norep
    (todos : List Todo) (pid : String) (p : Todo)
    (today : Nat × Nat × Nat) (now freshId : String)
    (hf : todos.find? (fun t : Todo => t.id == pid) = some p)
    (hrep0 : ¬ 0 < p.repeatDays) :
    handleToggle todos pid today now freshId false =
      todos.map (markToggled pid (! p.completed) (formatDate today)) := by
  unfold handleToggle
  rw [hf]
  dsimp only
  rw [if_neg (by simp : ¬ false = true), if_neg hrep0]
  rfl

theorem toggle_reduction_unspawn_none
    (s : List Todo) (pid : String) (q : Todo)
    (today : Nat × Nat × Nat) (now freshId : String)
    (hf : s.find? (fun t : Todo => t.id == pid) = some q)
    (hcomp : q.completed = true)
    (hrep : 0 < q.repeatDays)
    (hc : s.find? (fun t : Todo =>
        t.recurringParentId == some q.id && t.deletedAt == none) = none) :
    handleToggle s pid today now freshId false =
      s.map (markToggled pid false (formatDate today)) := by
  unfold handleToggle
  rw [hf]
  simp only [hcomp, Bool.not_true, if_pos hrep]
  rw [if_neg (by simp : ¬ false = true), if_neg (by simp : ¬ false = true), hc]
  rfl

/-- The live children of `pid`: the code's `recurringParentId` lookup set. -/
def liveChildren (todos : List Todo) (pid : String) : List Todo :=
  todos.filter (fun t => t.recurringParentId == some pid && t.deletedAt == none)

theorem liveChildren_map (todos : List Todo) (pid : String) (f : Todo → Todo)
    (hpres : ∀ t : Todo, (f t).recurringParentId = t.recurringParentId ∧
      (f t).deletedAt = t.deletedAt)
    (hid : ∀ t ∈ liveChildren todos pid, f t = t) :
    liveChildren (todos.map f) pid = liveChildren todos pid := by
  unfold liveChildren at *
  rw [List.filter_map]
  have hpeq : ((fun t : Todo => t.recurringParentId == some pid &&
      t.deletedAt == none) ∘ f) =
      (fun t : Todo => t.recurringParentId == some pid && t.deletedAt == none) := by
    funext t
    rw [Function.comp_apply, (hpres t).1, (hpres t).2]
  rw [hpeq]
  exact map_eq_self_of_eq hid

theorem markToggled_id (pid : String) (c : Bool) (s : String) (t : Todo) :
    (markToggled pid c s t).id = t.id := by
  unfold markToggled
  by_cases h : t.id = pid <;> simp [h]

theorem markToggled_fields (pid : String) (c : Bool) (s : String) (t : Todo) :
    (markToggled pid c s t).recurringParentId = t.recurringParentId ∧
    (markToggled pid c s t).deletedAt = t.deletedAt ∧
    (markToggled pid c s t).repeatDays = t.repeatDays := by
  unfold markToggled
  by_cases h : t.id = pid <;> simp [h]

theorem map_ids_of_id_pres {f : Todo → Todo} (hf : ∀ t : Todo, (f t).id = t.id)
    (l : List Todo) : (l.map f).map (·.id) = l.map (·.id) := by
  rw [List.map_map]
  exact List.map_congr_left (fun t _ => hf t)

/-- The inductive invariant for the recurrence state machine. -/
def RecInv (todos : List Todo) (pid : String) : Prop :=
  (liveChildren todos pid).length ≤ 1 ∧
  (todos.map (·.id)).Nodup ∧
  (∀ t ∈ liveChildren todos pid, t.id ≠ pid) ∧
  (∀ q : Todo, todos.find? (fun t : Todo => t.id == pid) = some q →
    (q.completed = false → liveChildren todos pid = []) ∧
    (q.repeatDays = 0 → liveChildren todos pid = []))

theorem markUncompleted_rpid (pid : String) (t : Todo) :
    (markUncompleted pid t).recurringParentId = t.recurringParentId := by
  unfold markUncompleted
  by_cases h : t.id = pid <;> simp [h]

theorem markDeleted_rpid (cid now : String) (t : Todo) :
    (markDeleted cid now t).recurringParentId = t.recurringParentId := by
  unfold markDeleted
  by_cases h : t.id = cid <;> simp [h]

/-- One completion toggle preserves the recurrence invariant. -/
theorem recInv_step (todos : List Todo) (pid : String)
    (today : Nat × Nat × Nat) (now freshId : String)
    (hinv : RecInv todos pid)
    (hfresh : freshId ∉ todos.map (·.id)) :
    RecInv (handleToggle todos pid today now freshId false) pid := by
  obtain ⟨hlen, hnodup, hne, hq4⟩ := hinv
  cases hf : todos.find? (fun t : Todo => t.id == pid) with
  | none =>
    have hstep : handleToggle todos pid today now freshId false = todos := by
      unfold handleToggle
      rw [hf]
    rw [hstep]
    exact ⟨hlen, hnodup, hne, hq4⟩
  | some p =>
    have hpid : p.id = pid := by simpa using List.find?_some hf
    have hpmem : p ∈ todos := List.mem_of_find?_eq_some hf
    have hpidmem : pid ∈ todos.map (·.id) := hpid ▸ List.mem_map.mpr ⟨p, hpmem, rfl⟩
    have hfrne : freshId ≠ pid := fun he => hfresh (he ▸ hpidmem)
    by_cases hrep : 0 < p.repeatDays
    · cases hcompl : p.completed with
      | false =>
        -- completing a recurring parent: spawn a child
        have hempty : liveChildren todos pid = [] := (hq4 p hf).1 hcompl
        rw [c7_spawn_reduction todos pid p today now freshId hf hcompl hrep]
        set S := todos.filter (fun t : Todo =>
          decide (t.category = p.category ∧ t.group = p.group ∧ t.deletedAt = none))
          with hS
        set child : Todo := spawnChildOf p today freshId (maxOrderOf S) with hchild
        set f1 : Todo → Todo := markCompleted pid (formatDate today) with hf1
        have hcid : child.id = freshId := by rw [hchild]; rfl
        have hmapids : ((todos.map f1).map (·.id)) = todos.map (·.id) := by
          rw [hf1]
          exact map_ids_of_id_pres (markCompleted_id pid _) todos
        have hLids : (((todos.map f1) ++ [child]).map (·.id)).Nodup := by
          rw [List.map_append, hmapids, List.nodup_append]
          refine ⟨hnodup, by simp, ?_⟩
          intro a ha hb
          simp only [List.map_cons, List.map_nil, List.mem_cons, List.not_mem_nil,
            or_false] at hb
          rw [hcid] at hb
          exact hfresh (hb ▸ ha)
        have hperm : (sortByOrder ((todos.map f1) ++ [child])).Perm
            ((todos.map f1) ++ [child]) := stableSortBy_perm _ _
        have hids : ((sortByOrder ((todos.map f1) ++ [child])).map (·.id)).Nodup :=
          ((hperm.map (·.id)).nodup_iff).mpr hLids
        have hlcmap : liveChildren (todos.map f1) pid = [] := by
          rw [hf1, liveChildren_map todos pid _
            (fun t => ⟨(markCompleted_parent_fields pid (formatDate today) t).1,
              (markCompleted_parent_fields pid (formatDate today) t).2⟩)
            (fun t ht => by rw [hempty] at ht; simp at ht), hempty]
        have hlcL : liveChildren ((todos.map f1) ++ [child]) pid = [child] := by
          unfold liveChildren
          unfold liveChildren at hlcmap
          rw [List.filter_append, hlcmap, hchild]
          simp [spawnChildOf, hpid]
        have hpermlc : (liveChildren (sortByOrder ((todos.map f1) ++ [child])) pid).Perm
            (liveChildren ((todos.map f1) ++ [child]) pid) :=
          hperm.filter _
        refine ⟨?_, ?_, ?_, ?_⟩
        · have hl := hpermlc.length_eq
          rw [hlcL] at hl
          simp only [List.length_cons, List.length_nil] at hl
          omega
        · exact hids
        · intro t ht
          have htL := (hpermlc.mem_iff).mp ht
          rw [hlcL] at htL
          have hte : t = child := by simpa using htL
          rw [hte, hcid]
          exact hfrne
        · intro q hq
          have hqmem : markCompleted pid (formatDate today) p ∈
              sortByOrder ((todos.map f1) ++ [child]) := by
            refine (hperm.mem_iff).mpr (List.mem_append.mpr (Or.inl ?_))
            exact List.mem_map.mpr ⟨p, hpmem, by rw [hf1]⟩
          have hfq : (sortByOrder ((todos.map f1) ++ [child])).find?
              (fun u : Todo => u.id == pid) =
              some (markCompleted pid (formatDate today) p) :=
            find?_eq_self_of_nodup_id hids hqmem
              (by rw [markCompleted_id]; exact hpid)
          rw [hq] at hfq
          have hqe : q = markCompleted pid (formatDate today) p := Option.some.inj hfq
          constructor
          · intro hqc
            exfalso
            rw [hqe] at hqc
            unfold markCompleted at hqc
            rw [if_pos hpid] at hqc
            simp at hqc
          · intro hqr
            exfalso
            rw [hqe] at hqr
            unfold markCompleted at hqr
            rw [if_pos hpid] at hqr
            simp at hqr
            omega
      | true =>
        -- uncompleting: retract the child, if any
        cases hc : todos.find? (fun t : Todo =>
            t.recurringParentId == some p.id && t.deletedAt == none) with
        | none =>
          have hpredeq : (fun t : Todo =>
              t.recurringParentId == some p.id && t.deletedAt == none) =
              (fun t : Todo =>
              t.recurringParentId == some pid && t.deletedAt == none) := by
            rw [hpid]
          have hempty : liveChildren todos pid = [] := by
            unfold liveChildren
            rw [hpredeq] at hc
            rw [List.find?_eq_none] at hc
            rw [List.filter_eq_nil_iff]
            intro t ht
            exact hc t ht
          rw [toggle_reduction_unspawn_none todos pid p today now freshId hf
            hcompl hrep hc]
          have hlc : liveChildren
              (todos.map (markToggled pid false (formatDate today))) pid =
              liveChildren todos pid :=
            liveChildren_map _ _ _
              (fun t => ⟨(markToggled_fields pid false (formatDate today) t).1,
                (markToggled_fields pid false (formatDate today) t).2.1⟩)
              (fun t ht => by rw [hempty] at ht; simp at ht)
          refine ⟨?_, ?_, ?_, ?_⟩
          · rw [hlc, hempty]
            simp
          · rw [map_ids_of_id_pres (markToggled_id pid false (formatDate today))]
            exact hnodup
          · intro t ht
            rw [hlc, hempty] at ht
            simp at ht
          · intro q hq
            exact ⟨fun _ => by rw [hlc, hempty], fun _ => by rw [hlc, hempty]⟩
        | some c =>
          have hcpred := List.find?_some hc
          have hcmem := List.mem_of_find?_eq_some hc
          simp only [Bool.and_eq_true, beq_iff_eq] at hcpred
          have hcin : c ∈ liveChildren todos pid := by
            unfold liveChildren
            rw [List.mem_filter]
            refine ⟨hcmem, ?_⟩
            simp [hcpred.1, hcpred.2, ← hpid]
          have hsingle : liveChildren todos pid = [c] :=
            eq_singleton_of_length_le_one hlen hcin
          have hcne : c.id ≠ pid := hne c hcin
          rw [c7_unspawn_reduction todos pid p c today now freshId hf hcompl hrep hc,
            List.map_map]
          have hgid : ∀ t : Todo,
              ((markDeleted c.id now ∘ markUncompleted pid) t).id = t.id :=
            markDeleted_comp_id c.id now pid
          have hlcnew : liveChildren
              (todos.map (markDeleted c.id now ∘ markUncompleted pid)) pid = [] := by
            unfold liveChildren
            rw [List.filter_eq_nil_iff]
            intro x hx
            obtain ⟨t, htm, hxt⟩ := List.mem_map.mp hx
            rw [← hxt]
            simp only [Function.comp_apply, Bool.and_eq_true, beq_iff_eq, not_and]
            intro h1
            by_cases hti : t.id = c.id
            · have hdel : (markDeleted c.id now (markUncompleted pid t)).deletedAt =
                  some now := by
                unfold markDeleted
                rw [if_pos (by rw [markUncompleted_id]; exact hti)]
              rw [hdel]
              simp
            · have hdel : (markDeleted c.id now (markUncompleted pid t)).deletedAt =
                  t.deletedAt := by
                unfold markDeleted
                rw [if_neg (by rw [markUncompleted_id]; exact hti)]
                exact markUncompleted_del pid t
              have hrp : (markDeleted c.id now
                  (markUncompleted pid t)).recurringParentId =
                  t.recurringParentId := by
                rw [markDeleted_rpid, markUncompleted_rpid]
              rw [hrp] at h1
              rw [hdel]
              intro h2
              have htlc : t ∈ liveChildren todos pid := by
                unfold liveChildren
                rw [List.mem_filter]
                exact ⟨htm, by simp [h1, h2]⟩
              rw [hsingle] at htlc
              have hte : t = c := by simpa using htlc
              exact hti (by rw [hte])
          refine ⟨by rw [hlcnew]; simp, ?_, ?_, ?_⟩
          · rw [map_ids_of_id_pres hgid]
            exact hnodup
          · intro t ht
            rw [hlcnew] at ht
            simp at ht
          · intro q hq
            exact ⟨fun _ => hlcnew, fun _ => hlcnew⟩
    · -- not recurring: the toggle only flips the completion fields
      have hrep0 : p.repeatDays = 0 := by omega
      have hempty : liveChildren todos pid = [] := (hq4 p hf).2 hrep0
      rw [toggle_reduction_norep todos pid p today now freshId hf hrep]
      have hlc : liveChildren
          (todos.map (markToggled pid (! p.completed) (formatDate today))) pid =
          liveChildren todos pid :=
        liveChildren_map _ _ _
          (fun t => ⟨(markToggled_fields pid (! p.completed) (formatDate today) t).1,
            (markToggled_fields pid (! p.completed) (formatDate today) t).2.1⟩)
          (fun t ht => by rw [hempty] at ht; simp at ht)
      refine ⟨?_, ?_, ?_, ?_⟩
      · rw [hlc, hempty]
        simp
      · rw [map_ids_of_id_pres (markToggled_id pid (! p.completed) (formatDate today))]
        exact hnodup
      · intro t ht
        rw [hlc, hempty] at ht
        simp at ht
      · intro q hq
        exact ⟨fun _ => by rw [hlc, hempty], fun _ => by rw [hlc, hempty]⟩

/-- One toggle of the parent item, with the ambient date, timestamp and the
repository-assigned id for a potential spawned child. -/
structure ToggleOp where
  today : Nat × Nat × Nat
  now : String
  freshId : String

/-- Run a sequence of completion toggles of the item `pid`. -/
def runToggles (pid : String) : List Todo → List ToggleOp → List Todo
  | todos, [] => todos
  | todos, op :: ops =>
    runToggles pid (handleToggle todos pid op.today op.now op.freshId false) ops

/-- Every repository-assigned id in the run is fresh for the state in which
its operation executes. -/
def freshRun (pid : String) : List Todo → List ToggleOp → Bool
  | _, [] => true
  | todos, op :: ops =>
    !((todos.map (·.id)).contains op.freshId) &&
      freshRun pid (handleToggle todos pid op.today op.now op.freshId false) ops

theorem recInv_run (pid : String) (ops : List ToggleOp) :
    ∀ todos : List Todo, RecInv todos pid → freshRun pid todos ops = true →
      RecInv (runToggles pid todos ops) pid := by
  induction ops with
  | nil => intro todos hinv _; exact hinv
  | cons op ops ih =>
    intro todos hinv hfr
    unfold freshRun at hfr
    rw [Bool.and_eq_true] at hfr
    have hfresh : op.freshId ∉ todos.map (·.id) := by
      intro hmem
      have hcont : ((todos.map (·.id)).contains op.freshId) = true := by
        simpa using hmem
      have h1 := hfr.1
      rw [hcont] at h1
      simp at h1
    exact ih _ (recInv_step todos pid op.today op.now op.freshId hinv hfresh) hfr.2

/-- **C5** (confirmed).  For any sequence of completion toggles of an item,
starting from a state with no live child of that item, duplicate-free ids,
and fresh repository-assigned ids, at most one live todo references the item
via `recurringParentId` after the sequence — and since every prefix of a
sequence is itself a sequence, at every intermediate point as well. -/
theorem c5_recurrence_uniqueness (todos : List Todo) (pid : String)
    (ops : List ToggleOp)
    (hnodup : (todos.map (·.id)).Nodup)
    (hnochild : liveChildren todos pid = [])
    (hfresh : freshRun pid todos ops = true) :
    (liveChildren (runToggles pid todos ops) pid).length ≤ 1 := by
  have hinv : RecInv todos pid := by
    refine ⟨by rw [hnochild]; simp, hnodup, ?_, ?_⟩
    · intro t ht
      rw [hnochild] at ht
      simp at ht
    · intro q _
      exact ⟨fun _ => hnochild, fun _ => hnochild⟩
  exact (recInv_run pid ops todos hinv hfresh).1

/-- Witness for C5: a recurring parent toggled three times (complete,
uncomplete, complete again) with fresh child ids keeps at most one live
child. -/
theorem c5_recurrence_uniqueness_witness :
    ((([c7P].map (·.id)).Nodup ∧ liveChildren [c7P] "p" = [] ∧
      freshRun "p" [c7P]
        [⟨(2026, 2, 7), "n1", "c1"⟩, ⟨(2026, 2, 8), "n2", "c2"⟩,
         ⟨(2026, 2, 9), "n3", "c3"⟩] = true) ∧
     (liveChildren (runToggles "p" [c7P]
        [⟨(2026, 2, 7), "n1", "c1"⟩, ⟨(2026, 2, 8), "n2", "c2"⟩,
         ⟨(2026, 2, 9), "n3", "c3"⟩]) "p").length ≤ 1) :=
  ⟨⟨by decide, by decide, by decide⟩,
   c5_recurrence_uniqueness [c7P] "p"
     [⟨(2026, 2, 7), "n1", "c1"⟩, ⟨(2026, 2, 8), "n2", "c2"⟩,
      ⟨(2026, 2, 9), "n3", "c3"⟩] (by decide) (by decide) (by decide)⟩
